import Mathlib

/-!
Verification development for the go-wallet custodial core.

This file gives a shallow embedding of the data model and the operations of the
go-wallet repository (balance aggregation, the confirmation state machine, the
nonce allocator, wallet creation, the withdraw request path, the ERC-20 deposit
analyzer, the reorg handler of the chain scanner, BIP44/EVM address rendering
and the keystore encrypt/decrypt pair), together with theorems settling the
stated behavioural claims.

Modelling conventions, used throughout:

- Database tables are Lean lists of rows; a SQL UPDATE is a map over the list,
  a SELECT is a filter or find, an INSERT is an append.  Amount columns, which
  the Go code keeps as decimal strings and aggregates with SQL numeric
  arithmetic, are modelled as rationals.
- 32-byte hashes and 20-byte addresses that the Go code passes around as
  lowercase "0x…" hex strings are modelled by their numeric value (a Nat)
  wherever the claim at hand does not depend on the text representation;
  lowercasing such a string is then the identity.  The address-format claims,
  which do depend on the text representation, use an explicit byte/char level
  model including Keccak-256 and the EIP-55 checksum.
- External cryptographic library primitives (scrypt, SHA-256, the AES-CTR
  keystream, secp256k1 public-key derivation) are parameters of the embedding;
  everything the repository's own code does around them is modelled concretely.
-/

namespace GoWallet

/-- Row of the credits table (append-only ledger).  The nullable chain_id and
block_number columns are options; hex-string columns are plain strings. -/
structure Credit where
  userId : String
  address : String
  tokenId : Int
  tokenSymbol : String
  amount : ℚ
  creditType : String
  businessType : String
  referenceId : String
  referenceType : String
  chainId : Option Int
  blockNumber : Option Int
  status : String
deriving Repr, DecidableEq

/-- Row of the transactions table.  Hashes and addresses are modelled by their
numeric value (the Go code stores lowercase hex strings). -/
structure TransactionRow where
  id : String
  chainId : Int
  blockHash : Nat
  blockNo : Int
  txHash : Nat
  fromAddr : Nat
  toAddr : Nat
  tokenAddr : Option Nat
  amount : Nat
  txType : String
  status : String
  confirmationCount : Option Int
deriving Repr, DecidableEq

/-- Row of the blocks table. -/
structure BlockRow where
  hash : Nat
  chainId : Int
  parentHash : Nat
  number : Int
  timestamp : Int
  status : String
deriving Repr, DecidableEq

/-- Row of the chains table (the fields the embedded operations read). -/
structure ChainRow where
  chainId : Int
  isActive : Bool
  confirmationBlocks : Option Int
  finalizedBlocks : Option Int
deriving Repr, DecidableEq

/-- Row of the tokens table (the fields the withdraw path reads). -/
structure TokenRow where
  id : Int
  chainId : Int
  chainType : String
  tokenSymbol : String
deriving Repr, DecidableEq

/-- Row of the wallets table. -/
structure WalletRow where
  userId : String
  address : String
  chainType : String
  chainId : Int
  derivationPath : String
  addressIndex : Int
  walletType : String
  deviceName : Option String
deriving Repr, DecidableEq

/-- Row of the withdraws table (the fields RequestWithdraw writes). -/
structure WithdrawRow where
  id : String
  userId : String
  toAddress : String
  tokenId : Int
  amount : ℚ
  fee : ℚ
  chainId : Int
  chainType : String
  status : String
deriving Repr, DecidableEq

/-- Row of the wallet_nonces table. -/
structure NonceRow where
  address : String
  chainId : Int
  nonce : Int
  lastUsedAt : Option Nat
deriving Repr, DecidableEq

/-- Row of the address_indexes table. -/
structure AddressIndexRow where
  chainType : String
  deviceName : Option String
  currentIndex : Int
deriving Repr, DecidableEq

/-! ## Balance service (internal/wallet/balance/service.go)

Each query is a SQL aggregation over credits; the embedding filters the
credits list with the query's WHERE clause and sums the amount column. -/

/-- WHERE clause of GetAvailableBalance: status is finalized, or the row is a
withdraw credit in one of the outstanding statuses. -/
def availableWhere (userId : String) (chainId tokenId : Int) (c : Credit) : Bool :=
  c.userId == userId && c.chainId == some chainId && c.tokenId == tokenId &&
    (c.status == "finalized" ||
      (c.creditType == "withdraw" &&
        (c.status == "pending" || c.status == "processing" ||
          c.status == "frozen" || c.status == "signing")))

/-- GetAvailableBalance: COALESCE(SUM(amount), 0) over the rows selected by
availableWhere. -/
def getAvailableBalance (credits : List Credit) (userId : String)
    (chainId tokenId : Int) : ℚ :=
  ((credits.filter (availableWhere userId chainId tokenId)).map Credit.amount).sum

/-- WHERE clause selecting a user's finalized credits for one chain and token. -/
def finalizedWhere (userId : String) (chainId tokenId : Int) (c : Credit) : Bool :=
  c.userId == userId && c.chainId == some chainId && c.tokenId == tokenId &&
    c.status == "finalized"

/-- Sum of the user's finalized credit amounts for one chain and token. -/
def finalizedBalance (credits : List Credit) (userId : String)
    (chainId tokenId : Int) : ℚ :=
  ((credits.filter (finalizedWhere userId chainId tokenId)).map Credit.amount).sum

/-- WHERE clause selecting the outstanding withdraw credits of GetAvailableBalance:
credit_type is withdraw and status is pending, processing, frozen or signing. -/
def outstandingWithdrawWhere (userId : String) (chainId tokenId : Int)
    (c : Credit) : Bool :=
  c.userId == userId && c.chainId == some chainId && c.tokenId == tokenId &&
    (c.creditType == "withdraw" &&
      (c.status == "pending" || c.status == "processing" ||
        c.status == "frozen" || c.status == "signing"))

/-- The outstanding withdraw credit rows of a user for one chain and token. -/
def outstandingWithdraws (credits : List Credit) (userId : String)
    (chainId tokenId : Int) : List Credit :=
  credits.filter (outstandingWithdrawWhere userId chainId tokenId)

/-- WHERE clause of GetBalanceByToken: the user's finalized credits, with the
optional chain_id filter appended when a chain id is supplied. -/
def balanceByTokenWhere (userId : String) (chainFilter : Option Int)
    (c : Credit) : Bool :=
  c.userId == userId && c.status == "finalized" &&
    (match chainFilter with
     | none => true
     | some cid => c.chainId == some cid)

/-- GROUP BY key of GetBalanceByToken: (token_id, token_symbol, chain_id). -/
def creditGroupKey (c : Credit) : Int × String × Option Int :=
  (c.tokenId, c.tokenSymbol, c.chainId)

/-- Sum of a group's amounts among the rows selected by balanceByTokenWhere. -/
def tokenGroupSum (credits : List Credit) (userId : String)
    (chainFilter : Option Int) (key : Int × String × Option Int) : ℚ :=
  (((credits.filter (balanceByTokenWhere userId chainFilter)).filter
      (fun c => creditGroupKey c == key)).map Credit.amount).sum

/-- GetBalanceByToken: group the selected credits by (token_id, token_symbol,
chain_id) and keep the groups whose sum is strictly positive (the SQL HAVING
SUM(amount) > 0 clause).  The ORDER BY clause only orders the output and is
not modelled; the result is the list of surviving group keys with their sums. -/
def getBalanceByToken (credits : List Credit) (userId : String)
    (chainFilter : Option Int) : List ((Int × String × Option Int) × ℚ) :=
  let filtered := credits.filter (balanceByTokenWhere userId chainFilter)
  let keys := (filtered.map creditGroupKey).dedup
  (keys.filter (fun k => decide (0 < tokenGroupSum credits userId chainFilter k))).map
    (fun k => (k, tokenGroupSum credits userId chainFilter k))

/-! ## Nonce allocator (hotwallet service, GetNextNonce) -/

/-- GetNextNonce: select-for-update the wallet_nonces row keyed by (address,
chain_id), return its current nonce, and write back nonce+1 stamping
last_used_at with the current time.  The row lookup failing is the error path
of the Go code.  The (address, chain_id) pair is unique in the table, so the
map touches the single matching row. -/
def getNextNonce (now : Nat) (rows : List NonceRow) (address : String)
    (chainId : Int) : Except String (Int × List NonceRow) :=
  match rows.find? (fun r => r.address == address && r.chainId == chainId) with
  | none => .error "failed to get wallet nonce record"
  | some r =>
      .ok (r.nonce,
        rows.map (fun x =>
          if x.address == address && x.chainId == chainId then
            { x with nonce := r.nonce + 1, lastUsedAt := some now }
          else x))

/-! ## Confirmation processor (deposit service, updateTransactionStatus) -/

/-- Default confirmation threshold used when the chain row has no value. -/
def defaultConfirmationBlocks : Int := 12

/-- Default finalization threshold used when the chain row has no value. -/
def defaultFinalizedBlocks : Int := 32

/-- Effective confirmation threshold: the chain's confirmation_blocks when the
nullable column is set, otherwise the default 12. -/
def effectiveConfirmationBlocks (chain : ChainRow) : Int :=
  chain.confirmationBlocks.getD defaultConfirmationBlocks

/-- Effective finalization threshold: the chain's finalized_blocks when the
nullable column is set, otherwise the default 32. -/
def effectiveFinalizedBlocks (chain : ChainRow) : Int :=
  chain.finalizedBlocks.getD defaultFinalizedBlocks

/-- mapTransactionToCreditStatus: the transaction-status to credit-status table.
Statuses outside the table map to none (the ok=false return). -/
def mapTransactionToCreditStatus (txStatus : String) : Option String :=
  if txStatus == "confirmed" || txStatus == "safe" then some "confirmed"
  else if txStatus == "finalized" then some "finalized"
  else if txStatus == "failed" then some "failed"
  else none

/-- updateCreditStatus: set every credit row with reference_id = txId and
reference_type = blockchain_tx to the credit status mapped from the
transaction status; an unmapped status touches nothing. -/
def updateCreditStatus (credits : List Credit) (txId : String)
    (txStatus : String) : List Credit :=
  match mapTransactionToCreditStatus txStatus with
  | none => credits
  | some creditStatus =>
      credits.map (fun c =>
        if c.referenceId == txId && c.referenceType == "blockchain_tx" then
          { c with status := creditStatus }
        else c)

/-- Per-row step of updateTransactionStatus: compute the confirmation count
against the latest block, skip the row while it is negative (reorg window),
otherwise derive the new status from the thresholds; when the status changed
write status and confirmation_count and fan the change into the credits
(updateTransactionStatusAndConfirmation), when only the count changed write
just the confirmation_count column (updateConfirmationCountOnly). -/
def processTransactionRow (confirmationBlocks finalizedBlocks latestBlock : Int)
    (tx : TransactionRow) (credits : List Credit) :
    TransactionRow × List Credit :=
  let confirmationCount := latestBlock - tx.blockNo
  if confirmationCount < 0 then (tx, credits)
  else
    let newStatus :=
      if confirmationCount ≥ finalizedBlocks then "finalized"
      else if confirmationCount ≥ confirmationBlocks then "safe"
      else "confirmed"
    if tx.status ≠ newStatus then
      ({ tx with status := newStatus, confirmationCount := some confirmationCount },
        updateCreditStatus credits tx.id newStatus)
    else
      ({ tx with confirmationCount := some confirmationCount }, credits)

/-- One run of updateTransactionStatus for a chain: the rows with status in
(confirmed, safe, finalized) are processed in order by the per-row step, the
credit updates threading through; other rows are untouched. -/
def updateTransactionStatusRun (chain : ChainRow) (latestBlock : Int)
    (txs : List TransactionRow) (credits : List Credit) :
    List TransactionRow × List Credit :=
  txs.foldl
    (fun acc tx =>
      if tx.status == "confirmed" || tx.status == "safe" || tx.status == "finalized" then
        let step := processTransactionRow (effectiveConfirmationBlocks chain)
          (effectiveFinalizedBlocks chain) latestBlock tx acc.2
        (acc.1 ++ [step.1], step.2)
      else (acc.1 ++ [tx], acc.2))
    ([], credits)

/-! ## Withdraw request (internal/wallet/withdraw/service.go, RequestWithdraw) -/

/-- Request payload of RequestWithdraw. -/
structure WithdrawRequest where
  toAddress : String
  tokenId : Int
  amount : ℚ
deriving Repr, DecidableEq

/-- Persistent state the withdraw request path reads and writes. -/
structure WithdrawState where
  tokens : List TokenRow
  wallets : List WalletRow
  credits : List Credit
  withdraws : List WithdrawRow
deriving Repr, DecidableEq

/-- RequestWithdraw.  Validates amount > 0, loads the token, checks the
available balance, then inside one SQL transaction inserts the withdraw row
(status user_withdraw_request, fee 0) and the paired frozen credit row with
the negated amount and reference (withdraw.id, withdraw).  freshWithdrawId is
the database-generated id of the inserted withdraw; withdrawInsertOk and
creditInsertOk model the two inserts failing at the database, in which case
the transaction is rolled back (the error return carries no state, see
requestWithdrawFinalState). -/
def requestWithdraw (st : WithdrawState) (userId : String) (req : WithdrawRequest)
    (freshWithdrawId : String) (withdrawInsertOk creditInsertOk : Bool) :
    Except String (WithdrawRow × WithdrawState) :=
  if req.amount ≤ 0 then .error "invalid amount"
  else
    match st.tokens.find? (fun t => t.id == req.tokenId) with
    | none => .error "token not found"
    | some token =>
        if getAvailableBalance st.credits userId token.chainId token.id < req.amount then
          .error "insufficient balance"
        else
          let w : WithdrawRow :=
            { id := freshWithdrawId, userId := userId, toAddress := req.toAddress,
              tokenId := req.tokenId, amount := req.amount, fee := 0,
              chainId := token.chainId, chainType := token.chainType,
              status := "user_withdraw_request" }
          if !withdrawInsertOk then .error "failed to insert withdraw record"
          else
            match st.wallets.find? (fun wl =>
                wl.userId == userId && wl.chainId == token.chainId) with
            | none => .error "failed to find user wallet for credit record"
            | some userWallet =>
                let credit : Credit :=
                  { userId := userId, address := userWallet.address,
                    tokenId := token.id, tokenSymbol := token.tokenSymbol,
                    amount := -req.amount, creditType := "withdraw",
                    businessType := "blockchain", referenceId := w.id,
                    referenceType := "withdraw", chainId := some token.chainId,
                    blockNumber := none, status := "frozen" }
                if !creditInsertOk then .error "failed to insert credit record"
                else
                  .ok (w, { st with withdraws := st.withdraws ++ [w],
                                    credits := st.credits ++ [credit] })

/-- Final database state of a RequestWithdraw call: the transaction commits on
the ok path and rolls back (state unchanged) on every error path. -/
def requestWithdrawFinalState (st : WithdrawState) (userId : String)
    (req : WithdrawRequest) (freshWithdrawId : String)
    (withdrawInsertOk creditInsertOk : Bool) : WithdrawState :=
  match requestWithdraw st userId req freshWithdrawId withdrawInsertOk creditInsertOk with
  | .error _ => st
  | .ok p => p.2

/-! ## Wallet creation (internal/wallet/verify.go sibling, CreateWallet, and
the address index allocator of the address service) -/

/-- Persistent state CreateWallet reads and writes. -/
structure WalletServiceState where
  chains : List ChainRow
  wallets : List WalletRow
  addressIndexes : List AddressIndexRow
deriving Repr, DecidableEq

/-- GetNextAddressIndex: find the address_indexes row for (chain_type,
device_name); when absent create it with current_index 0 and return 0;
otherwise increment current_index and return the new value. -/
def getNextAddressIndex (rows : List AddressIndexRow) (chainType deviceName : String) :
    Int × List AddressIndexRow :=
  let deviceNameNull : Option String := if deviceName == "" then none else some deviceName
  match rows.find? (fun r => r.chainType == chainType && r.deviceName == deviceNameNull) with
  | none =>
      (0, rows ++ [{ chainType := chainType, deviceName := deviceNameNull,
                     currentIndex := 0 }])
  | some r =>
      (r.currentIndex + 1,
        rows.map (fun x =>
          if x.chainType == chainType && x.deviceName == deviceNameNull then
            { x with currentIndex := r.currentIndex + 1 }
          else x))

/-- CreateWallet.  Requires an active chain row; when the user already has a
wallet on the chain the existing row is returned unchanged (no error, no
insert, no index allocation); otherwise a fresh index is allocated, the
address derived (derive abstracts the seed/BIP44/secp256k1 pipeline, taking
the allocated index) and stored lower-cased in a new user wallet row.  path
rendering of the derivation path string is abstracted by pathOf. -/
def createWallet (derive : Int → String) (pathOf : Int → String)
    (st : WalletServiceState) (userId : String) (chainId : Int) :
    Except String (WalletRow × WalletServiceState) :=
  match st.chains.find? (fun c => c.chainId == chainId && c.isActive) with
  | none => .error "chain not found or inactive"
  | some _chain =>
      match st.wallets.find? (fun w => w.userId == userId && w.chainId == chainId) with
      | some existing => .ok (existing, st)
      | none =>
          let alloc := getNextAddressIndex st.addressIndexes "evm" ""
          let w : WalletRow :=
            { userId := userId, address := (derive alloc.1).toLower,
              chainType := "evm", chainId := chainId,
              derivationPath := pathOf alloc.1, addressIndex := alloc.1,
              walletType := "user", deviceName := none }
          .ok (w, { st with wallets := st.wallets ++ [w],
                            addressIndexes := alloc.2 })

/-! ## Transaction analyzer (internal/wallet/scan/analyzer.go)

Receipt logs carry 32-byte topics and a data payload; both are modelled at the
numeric level (a topic is the 256-bit value, the data is the byte list fed to
big.Int SetBytes).  Addresses compare lower-cased in the Go code and are
modelled by their numeric value. -/

/-- One receipt log: emitting contract address, topics, data payload bytes. -/
structure EthLog where
  address : Nat
  topics : List Nat
  data : List Nat
deriving Repr, DecidableEq

/-- Transaction receipt: status (1 = successful) and logs. -/
structure EthReceipt where
  status : Nat
  logs : List EthLog
deriving Repr, DecidableEq

/-- Keccak-256 of Transfer(address,address,uint256), the topic-0 value of an
ERC-20 Transfer event. -/
def transferEventSignature : Nat :=
  0xddf252ad1be2c89b69c2b068fc378daa952ba7f163c4a11628f55a4df523b3ef

/-- big.Int SetBytes: the data payload bytes read big-endian. -/
def beBytesToNat (bs : List Nat) : Nat :=
  bs.foldl (fun acc b => acc * 256 + b) 0

/-- common.BytesToAddress on a 32-byte topic keeps the last 20 bytes. -/
def topicToAddress (t : Nat) : Nat := t % 2 ^ 160

/-- Database state the analyzer reads and writes: the tracked wallet addresses
per chain and the transactions table. -/
structure AnalyzerDB where
  wallets : List (Int × Nat)
  transactions : List TransactionRow
deriving Repr, DecidableEq

/-- isUserAddress: the (chain_id, lower(address)) lookup against wallets. -/
def isUserAddress (wallets : List (Int × Nat)) (chainId : Int) (addr : Nat) : Bool :=
  wallets.any (fun w => w.1 == chainId && w.2 == addr)

/-- transactionExists: the (chain_id, lower(tx_hash)) count against transactions. -/
def transactionExists (transactions : List TransactionRow) (chainId : Int)
    (txHash : Nat) : Bool :=
  transactions.any (fun t => t.chainId == chainId && t.txHash == txHash)

/-- Deposit row the ERC-20 branch of the analyzer inserts for one Transfer log. -/
def mkErc20DepositRow (chainId : Int) (txHash : Nat) (blockNumber : Int)
    (blockHash : Nat) (logEntry : EthLog) : TransactionRow :=
  { id := "", chainId := chainId, blockHash := blockHash, blockNo := blockNumber,
    txHash := txHash, fromAddr := topicToAddress (logEntry.topics.getD 1 0),
    toAddr := topicToAddress (logEntry.topics.getD 2 0),
    tokenAddr := some logEntry.address, amount := beBytesToNat logEntry.data,
    txType := "deposit", status := "confirmed", confirmationCount := none }

/-- Loop body of analyzeERC20Transfers for one log: skip non-Transfer topics,
skip when the decoded to-address is not tracked, skip when a transactions row
with (chain_id, tx_hash) already exists, otherwise insert the deposit row.
The existence check runs against the current table, inserted rows included. -/
def analyzeOneLog (chainId : Int) (txHash : Nat) (blockNumber : Int)
    (blockHash : Nat) (db : AnalyzerDB) (logEntry : EthLog) : AnalyzerDB :=
  if logEntry.topics.length < 3 then db
  else if logEntry.topics.getD 0 0 ≠ transferEventSignature then db
  else if !isUserAddress db.wallets chainId (topicToAddress (logEntry.topics.getD 2 0)) then db
  else if transactionExists db.transactions chainId txHash then db
  else
    { db with transactions :=
        db.transactions ++ [mkErc20DepositRow chainId txHash blockNumber blockHash logEntry] }

/-- analyzeERC20Transfers: ignore failed receipts, then run the log loop. -/
def analyzeERC20Transfers (chainId : Int) (txHash : Nat) (receipt : EthReceipt)
    (blockNumber : Int) (blockHash : Nat) (db : AnalyzerDB) : AnalyzerDB :=
  if receipt.status ≠ 1 then db
  else receipt.logs.foldl (analyzeOneLog chainId txHash blockNumber blockHash) db

/-- A log the ERC-20 loop would insert for (given the tracked wallets): a
Transfer event with at least 3 topics whose to-address is tracked. -/
def isMatchingTransferLog (wallets : List (Int × Nat)) (chainId : Int)
    (logEntry : EthLog) : Bool :=
  decide (3 ≤ logEntry.topics.length) &&
    logEntry.topics.getD 0 0 == transferEventSignature &&
    isUserAddress wallets chainId (topicToAddress (logEntry.topics.getD 2 0))

/-! ## Reorg handler and block persistence (internal/wallet/scan/reorg.go and
the scanBlock path of the chain scanner) -/

/-- Database state the scanner reads and writes. -/
structure ScanDB where
  blocks : List BlockRow
  transactions : List TransactionRow
  credits : List Credit
deriving Repr, DecidableEq

/-- Block fetched from the chain, as the scanner sees it. -/
structure IncomingBlock where
  hash : Nat
  parentHash : Nat
  number : Int
  timestamp : Int
deriving Repr, DecidableEq

/-- rollbackBlock: mark the block orphaned, its transactions (matched by
chain_id and block_hash) failed, and the credits matched by (chain_id,
block_number) failed. -/
def rollbackBlock (chainId : Int) (b : BlockRow) (db : ScanDB) : ScanDB :=
  { blocks := db.blocks.map (fun x =>
      if x.chainId == chainId && x.hash == b.hash then { x with status := "orphaned" }
      else x),
    transactions := db.transactions.map (fun t =>
      if t.chainId == chainId && t.blockHash == b.hash then { t with status := "failed" }
      else t),
    credits := db.credits.map (fun c =>
      if c.chainId == some chainId && c.blockNumber == some b.number then
        { c with status := "failed" }
      else c) }

/-- handleReorg: select every non-orphaned block of the chain at height
strictly above reorgBlockNumber and roll each back.  The ORDER BY number DESC
of the Go query only fixes the iteration order; each rollback writes constant
statuses into disjoint or identical rows, so the final state does not depend
on it and the embedding folds in selection order. -/
def handleReorg (chainId : Int) (reorgBlockNumber : Int) (db : ScanDB) : ScanDB :=
  (db.blocks.filter (fun b =>
      b.chainId == chainId && b.number > reorgBlockNumber && b.status != "orphaned")).foldl
    (fun acc b => rollbackBlock chainId b acc) db

/-- detectAndHandleReorg: look up the non-orphaned stored block at the new
block's height minus one; when present and its hash differs from the new
block's parent hash, run handleReorg on that height. -/
def detectAndHandleReorg (chainId : Int) (newBlock : IncomingBlock) (db : ScanDB) : ScanDB :=
  match db.blocks.find? (fun b =>
      b.chainId == chainId && b.number == newBlock.number - 1 && b.status != "orphaned") with
  | none => db
  | some parent =>
      if parent.hash ≠ newBlock.parentHash then
        handleReorg chainId (newBlock.number - 1) db
      else db

/-- blockExists: the scanner's existence check, counting rows of the chain
whose hash or number matches (orphaned rows included). -/
def blockExists (blocks : List BlockRow) (chainId : Int) (hash : Nat)
    (number : Int) : Bool :=
  blocks.any (fun b => b.chainId == chainId && (b.hash == hash || b.number == number))

/-- Block-persistence path of scanBlock: run reorg detection, then skip when
blockExists reports a row, else insert the block row with status confirmed.
The per-transaction analyzer stage that follows in scanBlock is modelled
separately (analyzeERC20Transfers) and not repeated here. -/
def scanBlockPersist (chainId : Int) (newBlock : IncomingBlock) (db : ScanDB) : ScanDB :=
  let db1 := detectAndHandleReorg chainId newBlock db
  if blockExists db1.blocks chainId newBlock.hash newBlock.number then db1
  else
    { db1 with blocks := db1.blocks ++
        [{ hash := newBlock.hash, chainId := chainId,
           parentHash := newBlock.parentHash, number := newBlock.number,
           timestamp := newBlock.timestamp, status := "confirmed" }] }

/-! ## Keccak-256 and EVM address rendering (internal/wallet/address/evm.go)

DeriveAddress ends in crypto.PubkeyToAddress followed by Address.Hex of the
go-ethereum library: Keccak-256 of the 64-byte public-key serialization, keep
the last 20 bytes, render as hex with the EIP-55 checksum.  Keccak-256 is
implemented here concretely (legacy Keccak padding, rate 136); the secp256k1
pipeline producing the public key stays a parameter of the address theorems. -/

/-- Mask selecting the low 64 bits of a lane. -/
def mask64 : Nat := 2 ^ 64 - 1

/-- Rotate a 64-bit lane left by n (n < 64). -/
def rotl64 (x n : Nat) : Nat :=
  ((x <<< n) ||| (x >>> (64 - n))) &&& mask64

/-- Keccak round constants (decimal). -/
def keccakRC : List Nat :=
  [1, 32898, 9223372036854808714, 9223372039002292224] ++
    [32907, 2147483649, 9223372039002292353, 9223372036854808585] ++
    [138, 136, 2147516425, 2147483658] ++
    [2147516555, 9223372036854775947, 9223372036854808713, 9223372036854808579] ++
    [9223372036854808578, 9223372036854775936, 32778, 9223372039002259466] ++
    [9223372039002292353, 9223372036854808704, 2147483649, 9223372039002292232]

/-- Keccak rotation offsets, indexed by lane index x + 5y, one sublist per
row y. -/
def keccakRotOffsets : List Nat :=
  [0, 1, 62, 28, 27] ++ [36, 44, 6, 55, 20] ++ [3, 10, 43, 25, 39] ++
    [41, 45, 15, 21, 8] ++ [18, 2, 61, 56, 14]

/-- Source lane index of the pi step for target lane j. -/
def piSource (j : Nat) : Nat :=
  ((j % 5 + 3 * (j / 5)) % 5) + 5 * (j % 5)

/-- One Keccak-f round (theta, rho, pi, chi, iota) on the 25-lane state. -/
def keccakRound (st : List Nat) (rc : Nat) : List Nat :=
  let c := (List.range 5).map fun x =>
    st.getD x 0 ^^^ st.getD (x + 5) 0 ^^^ st.getD (x + 10) 0 ^^^
      st.getD (x + 15) 0 ^^^ st.getD (x + 20) 0
  let d := (List.range 5).map fun x =>
    c.getD ((x + 4) % 5) 0 ^^^ rotl64 (c.getD ((x + 1) % 5) 0) 1
  let a1 := (List.range 25).map fun i => st.getD i 0 ^^^ d.getD (i % 5) 0
  let b := (List.range 25).map fun j =>
    rotl64 (a1.getD (piSource j) 0) (keccakRotOffsets.getD (piSource j) 0)
  let a2 := (List.range 25).map fun j =>
    b.getD j 0 ^^^
      ((mask64 ^^^ b.getD ((j % 5 + 1) % 5 + 5 * (j / 5)) 0) &&&
        b.getD ((j % 5 + 2) % 5 + 5 * (j / 5)) 0)
  a2.set 0 (a2.getD 0 0 ^^^ rc)

/-- The Keccak-f[1600] permutation. -/
def keccakF (st : List Nat) : List Nat :=
  keccakRC.foldl keccakRound st

/-- Legacy Keccak multi-rate padding at rate 136. -/
def keccakPad (msg : List Nat) : List Nat :=
  let q := 136 - msg.length % 136
  if q == 1 then msg ++ [0x81]
  else msg ++ [0x01] ++ List.replicate (q - 2) 0 ++ [0x80]

/-- Lane j of a 136-byte block, bytes read little-endian. -/
def laneOfBlock (block : List Nat) (j : Nat) : Nat :=
  (List.range 8).foldl (fun acc k => acc ||| ((block.getD (8 * j + k) 0 &&& 0xFF) <<< (8 * k))) 0

/-- Absorb one 136-byte block into the state and permute. -/
def keccakAbsorbBlock (st : List Nat) (block : List Nat) : List Nat :=
  keccakF ((List.range 25).map fun i => st.getD i 0 ^^^ (if i < 17 then laneOfBlock block i else 0))

/-- Keccak-256 of a byte list. -/
def keccak256 (msg : List Nat) : List Nat :=
  let padded := keccakPad msg
  let blocks := (List.range (padded.length / 136)).map fun i => (padded.drop (136 * i)).take 136
  let st := blocks.foldl keccakAbsorbBlock (List.replicate 25 0)
  (List.range 32).map fun i => (st.getD (i / 8) 0 >>> (8 * (i % 8))) &&& 0xFF

/-- crypto.PubkeyToAddress: the last 20 bytes of the Keccak-256 of the 64-byte
public-key serialization. -/
def pubkeyToAddressBytes (pub : List Nat) : List Nat :=
  (keccak256 pub).drop 12

/-- Lowercase hex character of a nibble: digits 0-9 then letters a-f (the
arithmetic form of the hex digit table). -/
def hexDigitChar (n : Nat) : Char :=
  if n < 10 then Char.ofNat (48 + n) else Char.ofNat (87 + n)

/-- Lowercase hex rendering of a byte list, two characters per byte. -/
def bytesToLowerHexChars : List Nat → List Char
  | [] => []
  | b :: t => hexDigitChar (b / 16 % 16) :: hexDigitChar (b % 16) :: bytesToLowerHexChars t

/-- One character of the EIP-55 checksum rendering: uppercase a hex letter
when the matching Keccak nibble of the lowercase rendering exceeds 7. -/
def checksumChar (ch : Char) (nib : Nat) : Char :=
  if ch.toNat > 57 && nib > 7 then Char.ofNat (ch.toNat - 32) else ch

/-- common.Address.Hex checksum body: Keccak-256 the ASCII bytes of the
lowercase hex rendering and case each character by the matching nibble. -/
def checksumAddressChars (addrBytes : List Nat) : List Char :=
  let lower := bytesToLowerHexChars addrBytes
  let hash := keccak256 (lower.map Char.toNat)
  (List.range lower.length).map fun i =>
    checksumChar (lower.getD i '0')
      (if i % 2 == 0 then hash.getD (i / 2) 0 >>> 4 else hash.getD (i / 2) 0 &&& 0xF)

/-- DeriveAddress output for a given public key: 0x followed by the EIP-55
checksummed hex of the address bytes (what Address.Hex returns). -/
def deriveAddressHexChars (pub : List Nat) : List Char :=
  '0' :: 'x' :: checksumAddressChars (pubkeyToAddressBytes pub)

/-- The string the spec describes: 0x followed by the lower-cased hex of the
last 20 bytes of the Keccak-256 of the public key. -/
def addressLowerHexChars (pub : List Nat) : List Char :=
  '0' :: 'x' :: bytesToLowerHexChars (pubkeyToAddressBytes pub)

/-- ASCII lowercasing of a character (what strings.ToLower does on hex text). -/
def asciiLowerChar (c : Char) : Char :=
  if 'A' ≤ c && c ≤ 'Z' then Char.ofNat (c.toNat + 32) else c

/-- ASCII lowercasing of a character list. -/
def asciiLower (cs : List Char) : List Char := cs.map asciiLowerChar

/-- Address stored by CreateWallet for a user wallet: the derived address
lower-cased before insertion. -/
def createWalletStoredAddress (pub : List Nat) : List Char :=
  asciiLower (deriveAddressHexChars pub)

/-- Address stored by CreateHotWallet for a hot wallet: the derived address
inserted unchanged. -/
def createHotWalletStoredAddress (pub : List Nat) : List Char :=
  deriveAddressHexChars pub

/-! ## Keystore (internal/wallet/keystore/encrypt.go and decrypt.go)

Mnemonic and password are byte lists (what the Go code obtains by casting the
strings to byte slices).  The external crypto primitives are parameters:
scryptKey is golang.org/x/crypto/scrypt.Key at the fixed parameters
(N=262144, r=8, p=1, dkLen=32), sha256Hash is crypto/sha256, and ctrKeystream
is the AES-128-CTR keystream determined by key and IV, byte i of which the
cipher XORs into byte i of the input.  The hex-encoded columns are modelled at
the nibble level: a stored hex string is the list of its digit values, and
decoding fails exactly when a value is not a hex digit or the length is odd. -/

/-- External cryptographic primitives the keystore code calls. -/
structure CryptoPrims where
  scryptKey : List Nat → List Nat → List Nat
  sha256Hash : List Nat → List Nat
  ctrKeystream : List Nat → List Nat → Nat → Nat

/-- AES-128-CTR XORKeyStream: byte i of the output is keystream byte i XOR
byte i of the input; output length equals input length. -/
def encryptAES128CTR (prims : CryptoPrims) (key iv data : List Nat) : List Nat :=
  (List.range data.length).map fun i => prims.ctrKeystream key iv i ^^^ data.getD i 0

/-- decryptAES128CTR is the same keystream XOR (CTR decryption). -/
def decryptAES128CTR (prims : CryptoPrims) (key iv data : List Nat) : List Nat :=
  (List.range data.length).map fun i => prims.ctrKeystream key iv i ^^^ data.getD i 0

/-- calculateMAC: SHA-256 of the second derived-key half concatenated with the
ciphertext. -/
def calculateMAC (prims : CryptoPrims) (key ciphertext : List Nat) : List Nat :=
  prims.sha256Hash (key ++ ciphertext)

/-- constantTimeCompare: length check, then OR-accumulate the bytewise XORs
and compare the accumulator with zero. -/
def constantTimeCompare (a b : List Nat) : Bool :=
  if a.length ≠ b.length then false
  else ((List.zip a b).foldl (fun acc p => acc ||| (p.1 ^^^ p.2)) 0) == 0

/-- Hex encoding at the nibble level: each byte contributes its two digit
values. -/
def hexEncode : List Nat → List Nat
  | [] => []
  | b :: t => (b / 16 % 16) :: (b % 16) :: hexEncode t

/-- Hex decoding at the nibble level: fails on an odd length or a value that
is not a hex digit, otherwise pairs the digits back into bytes. -/
def hexDecode : List Nat → Option (List Nat)
  | [] => some []
  | [_] => none
  | h1 :: h2 :: t =>
      if h1 < 16 && h2 < 16 then (hexDecode t).map (fun r => (16 * h1 + h2) :: r)
      else none

/-- The keystore v3 JSON produced by encryptMnemonic; hex columns are nibble
lists. -/
structure KeystoreJSONModel where
  version : Nat
  ciphertext : List Nat
  iv : List Nat
  cipherName : String
  kdf : String
  dklen : Nat
  salt : List Nat
  n : Nat
  r : Nat
  p : Nat
  mac : List Nat
deriving Repr, DecidableEq

/-- encryptMnemonic: scrypt the password with the fresh salt, AES-128-CTR the
mnemonic bytes under the first 16 derived bytes and the fresh IV, MAC the
ciphertext under derived bytes 16..32, and store everything hex-encoded with
the fixed scrypt parameters. -/
def encryptMnemonic (prims : CryptoPrims) (salt iv mnemonic password : List Nat) :
    KeystoreJSONModel :=
  let derivedKey := prims.scryptKey password salt
  let ciphertext := encryptAES128CTR prims (derivedKey.take 16) iv mnemonic
  let mac := calculateMAC prims ((derivedKey.drop 16).take 16) ciphertext
  { version := 3, ciphertext := hexEncode ciphertext, iv := hexEncode iv,
    cipherName := "aes-128-ctr", kdf := "scrypt", dklen := 32,
    salt := hexEncode salt, n := 262144, r := 8, p := 1, mac := hexEncode mac }

/-- decryptMnemonic: decode the hex columns, rerun scrypt, verify the MAC in
constant time failing with the single invalid-password error on mismatch, and
only then decrypt. -/
def decryptMnemonic (prims : CryptoPrims) (ks : KeystoreJSONModel)
    (password : List Nat) : Except String (List Nat) :=
  match hexDecode ks.salt with
  | none => .error "failed to decode salt"
  | some salt =>
  match hexDecode ks.iv with
  | none => .error "failed to decode IV"
  | some iv =>
  match hexDecode ks.ciphertext with
  | none => .error "failed to decode ciphertext"
  | some ciphertext =>
  match hexDecode ks.mac with
  | none => .error "failed to decode MAC"
  | some expectedMAC =>
      let derivedKey := prims.scryptKey password salt
      let mac := calculateMAC prims ((derivedKey.drop 16).take 16) ciphertext
      if !constantTimeCompare mac expectedMAC then
        .error "invalid password: MAC mismatch"
      else
        .ok (decryptAES128CTR prims (derivedKey.take 16) iv ciphertext)

/-- Toy instantiation of the external crypto primitives, used only to witness
the keystore theorems on concrete data. -/
def toyCryptoPrims : CryptoPrims :=
  { scryptKey := fun pw s => List.replicate 32 ((pw.sum + s.sum) % 256),
    sha256Hash := fun x => List.replicate 32 ((x.sum + 1) % 256),
    ctrKeystream := fun key ivv i => (key.sum + ivv.sum + i) % 256 }

/-! ## Helper lemmas -/

/-- Updating exactly the rows a predicate selects moves the first match of
find? to the updated row, provided the update preserves the predicate. -/
theorem find?_map_if {α : Type} (p : α → Bool) (g : α → α) (l : List α) (r : α)
    (h : l.find? p = some r) (hg : p (g r) = true) :
    (l.map fun x => if p x then g x else x).find? p = some (g r) := by
  induction l with
  | nil => simp at h
  | cons a t ih =>
      cases hpa : p a
      · have hna : ¬ (p a = true) := by rw [hpa]; exact Bool.false_ne_true
        rw [List.find?_cons_of_neg _ hna] at h
        simp only [List.map_cons]
        rw [if_neg hna, List.find?_cons_of_neg _ hna]
        exact ih h
      · rw [List.find?_cons_of_pos _ hpa] at h
        injection h with h
        subst h
        simp only [List.map_cons]
        rw [if_pos hpa]
        exact List.find?_cons_of_pos _ hg

/-- Unfolding lemma for getNextNonce on a present row. -/
theorem getNextNonce_eq (now : Nat) (rows : List NonceRow) (address : String)
    (chainId : Int) (r : NonceRow)
    (h : rows.find? (fun x => x.address == address && x.chainId == chainId) = some r) :
    getNextNonce now rows address chainId =
      .ok (r.nonce,
        rows.map fun x =>
          if x.address == address && x.chainId == chainId then
            { x with nonce := r.nonce + 1, lastUsedAt := some now }
          else x) := by
  unfold getNextNonce
  rw [h]

/-- The nonce row found after a getNextNonce update is the updated row. -/
theorem getNextNonce_find?_after (now : Nat) (rows : List NonceRow)
    (address : String) (chainId : Int) (r : NonceRow)
    (h : rows.find? (fun x => x.address == address && x.chainId == chainId) = some r) :
    ((rows.map fun x =>
        if x.address == address && x.chainId == chainId then
          { x with nonce := r.nonce + 1, lastUsedAt := some now }
        else x).find? (fun x => x.address == address && x.chainId == chainId)) =
      some { r with nonce := r.nonce + 1, lastUsedAt := some now } := by
  exact find?_map_if (fun x => x.address == address && x.chainId == chainId)
    (fun x => { x with nonce := r.nonce + 1, lastUsedAt := some now }) rows r h
    (by simpa using List.find?_some h)

/-- One GetNextNonce call on a present row: returns the stored nonce and the
updated table stores the incremented row. -/
theorem getNextNonce_step (now : Nat) (rows : List NonceRow) (address : String)
    (chainId : Int) (r : NonceRow)
    (h : rows.find? (fun x => x.address == address && x.chainId == chainId) = some r) :
    ∃ rows2, getNextNonce now rows address chainId = .ok (r.nonce, rows2) ∧
      rows2.find? (fun x => x.address == address && x.chainId == chainId) =
        some { r with nonce := r.nonce + 1, lastUsedAt := some now } :=
  ⟨_, getNextNonce_eq now rows address chainId r h,
    getNextNonce_find?_after now rows address chainId r h⟩

/-- C8: for every wallet_nonces row storing value n for (address, chain_id),
GetNextNonce returns n, writes back n+1 and stamps last_used_at; three
successive calls return the consecutive values n, n+1, n+2 and leave n+3
stored, so the stored value is always the next value to allocate. -/
theorem getNextNonce_monotonic (now1 now2 now3 : Nat) (rows : List NonceRow)
    (address : String) (chainId : Int) (r : NonceRow)
    (h : rows.find? (fun x => x.address == address && x.chainId == chainId) = some r) :
    ∃ rows1 rows2 rows3,
      getNextNonce now1 rows address chainId = .ok (r.nonce, rows1) ∧
      (rows1.find? (fun x => x.address == address && x.chainId == chainId)).map
        NonceRow.nonce = some (r.nonce + 1) ∧
      (rows1.find? (fun x => x.address == address && x.chainId == chainId)).map
        NonceRow.lastUsedAt = some (some now1) ∧
      getNextNonce now2 rows1 address chainId = .ok (r.nonce + 1, rows2) ∧
      getNextNonce now3 rows2 address chainId = .ok (r.nonce + 2, rows3) ∧
      (rows3.find? (fun x => x.address == address && x.chainId == chainId)).map
        NonceRow.nonce = some (r.nonce + 3) := by
  obtain ⟨rows1, e1, f1⟩ := getNextNonce_step now1 rows address chainId r h
  obtain ⟨rows2, e2, f2⟩ := getNextNonce_step now2 rows1 address chainId _ f1
  obtain ⟨rows3, e3, f3⟩ := getNextNonce_step now3 rows2 address chainId _ f2
  refine ⟨rows1, rows2, rows3, e1, by rw [f1]; rfl, by rw [f1]; rfl, e2, ?_, ?_⟩
  · have h21 : r.nonce + 1 + 1 = r.nonce + 2 := by ring
    rw [← h21]
    exact e3
  · rw [f3]
    show some (r.nonce + 1 + 1 + 1) = some (r.nonce + 3)
    have h31 : r.nonce + 1 + 1 + 1 = r.nonce + 3 := by ring
    rw [h31]

/-- Witness for C8: a nonce table storing 5 for (0xhot, 56) yields 5, 6, 7
from three successive calls, with 8 left stored. -/
theorem getNextNonce_monotonic_witness :
    ∃ rows1 rows2 rows3,
      getNextNonce 100 [⟨"0xhot", 56, 5, none⟩] "0xhot" 56 = .ok (5, rows1) ∧
      (rows1.find? (fun x => x.address == "0xhot" && x.chainId == 56)).map
        NonceRow.nonce = some 6 ∧
      (rows1.find? (fun x => x.address == "0xhot" && x.chainId == 56)).map
        NonceRow.lastUsedAt = some (some 100) ∧
      getNextNonce 101 rows1 "0xhot" 56 = .ok (6, rows2) ∧
      getNextNonce 102 rows2 "0xhot" 56 = .ok (7, rows3) ∧
      (rows3.find? (fun x => x.address == "0xhot" && x.chainId == 56)).map
        NonceRow.nonce = some 8 := by
  exact getNextNonce_monotonic 100 101 102 [⟨"0xhot", 56, 5, none⟩] "0xhot" 56
    ⟨"0xhot", 56, 5, none⟩ (by rfl)

/-- Disjoint boolean filters split a filtered amount sum. -/
theorem sum_filter_or_of_disjoint (l : List Credit) (p q : Credit → Bool)
    (hpq : ∀ c, ¬(p c = true ∧ q c = true)) :
    ((l.filter fun c => p c || q c).map Credit.amount).sum =
      ((l.filter p).map Credit.amount).sum + ((l.filter q).map Credit.amount).sum := by
  induction l with
  | nil => simp
  | cons a t ih =>
      cases hpa : p a
      · cases hqa : q a
        · simp [List.filter_cons, hpa, hqa, ih]
        · simp [List.filter_cons, hpa, hqa, ih]
          ring
      · have hqa : q a = false := by
          cases hq : q a
          · rfl
          · exact absurd ⟨hpa, hq⟩ (hpq a)
        simp [List.filter_cons, hpa, hqa, ih]
        ring

/-- The GetAvailableBalance WHERE clause is the disjunction of the finalized
clause and the outstanding-withdraw clause. -/
theorem availableWhere_eq_or (userId : String) (chainId tokenId : Int) (c : Credit) :
    availableWhere userId chainId tokenId c =
      (finalizedWhere userId chainId tokenId c ||
        outstandingWithdrawWhere userId chainId tokenId c) := by
  unfold availableWhere finalizedWhere outstandingWithdrawWhere
  rw [Bool.and_or_distrib_left]

/-- A row cannot be finalized and in an outstanding withdraw status at once. -/
theorem finalized_outstanding_disjoint (userId : String) (chainId tokenId : Int)
    (c : Credit) :
    ¬(finalizedWhere userId chainId tokenId c = true ∧
      outstandingWithdrawWhere userId chainId tokenId c = true) := by
  rintro ⟨hf, ho⟩
  unfold finalizedWhere at hf
  unfold outstandingWithdrawWhere at ho
  simp only [Bool.and_eq_true, Bool.or_eq_true, beq_iff_eq] at hf ho
  have hstat := hf.2
  have hs := ho.2.2
  rw [hstat] at hs
  rcases hs with ((h | h) | h) | h <;> exact absurd h (by decide)

/-- GetAvailableBalance splits into the finalized sum plus the outstanding
withdraw sum. -/
theorem getAvailableBalance_split (credits : List Credit) (userId : String)
    (chainId tokenId : Int) :
    getAvailableBalance credits userId chainId tokenId =
      finalizedBalance credits userId chainId tokenId +
        ((outstandingWithdraws credits userId chainId tokenId).map Credit.amount).sum := by
  unfold getAvailableBalance finalizedBalance outstandingWithdraws
  rw [List.filter_congr (fun c _ => availableWhere_eq_or userId chainId tokenId c)]
  exact sum_filter_or_of_disjoint credits _ _
    (finalized_outstanding_disjoint userId chainId tokenId)

/-- Summing absolute values of nonpositive amounts negates the sum. -/
theorem sum_map_abs_of_nonpos (l : List Credit) (h : ∀ c ∈ l, c.amount ≤ 0) :
    (l.map fun c => |c.amount|).sum = -(l.map Credit.amount).sum := by
  induction l with
  | nil => simp
  | cons a t ih =>
      simp only [List.map_cons, List.sum_cons]
      rw [abs_of_nonpos (h a (List.mem_cons_self a t)),
        ih (fun c hc => h c (List.mem_cons_of_mem a hc))]
      ring

/-- C2: GetAvailableBalance returns the sum of credit amounts over the rows
with the user, chain and token whose status is finalized or which are withdraw
credits in status pending, processing, frozen or signing; and because the
outstanding withdraw credits carry negative amounts, that sum equals the
finalized balance minus the total (sum of absolute amounts) of the
outstanding withdraws. -/
theorem getAvailableBalance_spec (credits : List Credit) (userId : String)
    (chainId tokenId : Int)
    (hneg : ∀ c ∈ outstandingWithdraws credits userId chainId tokenId, c.amount ≤ 0) :
    getAvailableBalance credits userId chainId tokenId =
      ((credits.filter (availableWhere userId chainId tokenId)).map Credit.amount).sum ∧
    getAvailableBalance credits userId chainId tokenId =
      finalizedBalance credits userId chainId tokenId -
        ((outstandingWithdraws credits userId chainId tokenId).map fun c => |c.amount|).sum := by
  refine ⟨rfl, ?_⟩
  rw [getAvailableBalance_split, sum_map_abs_of_nonpos _ hneg]
  ring

/-- Witness for C2: one finalized credit of 5 and one frozen withdraw credit
of -1 give an available balance of 5 - 1 = 4. -/
theorem getAvailableBalance_spec_witness :
    getAvailableBalance
        [⟨"u1", "0xa", 7, "USDT", 5, "deposit", "blockchain", "t1", "blockchain_tx",
          some 56, some 100, "finalized"⟩,
         ⟨"u1", "0xa", 7, "USDT", -1, "withdraw", "blockchain", "w1", "withdraw",
          some 56, none, "frozen"⟩] "u1" 56 7 =
      finalizedBalance
        [⟨"u1", "0xa", 7, "USDT", 5, "deposit", "blockchain", "t1", "blockchain_tx",
          some 56, some 100, "finalized"⟩,
         ⟨"u1", "0xa", 7, "USDT", -1, "withdraw", "blockchain", "w1", "withdraw",
          some 56, none, "frozen"⟩] "u1" 56 7 -
        ((outstandingWithdraws
          [⟨"u1", "0xa", 7, "USDT", 5, "deposit", "blockchain", "t1", "blockchain_tx",
            some 56, some 100, "finalized"⟩,
           ⟨"u1", "0xa", 7, "USDT", -1, "withdraw", "blockchain", "w1", "withdraw",
            some 56, none, "frozen"⟩] "u1" 56 7).map fun c => |c.amount|).sum :=
  (getAvailableBalance_spec _ "u1" 56 7 (by decide)).2

/-- C10: a (token_id, token_symbol, chain_id) group appears in the result of
GetBalanceByToken exactly when the sum of that group's finalized credit
amounts is strictly positive; groups summing to zero or below are omitted. -/
theorem getBalanceByToken_mem_iff (credits : List Credit) (userId : String)
    (chainFilter : Option Int) (key : Int × String × Option Int) :
    key ∈ (getBalanceByToken credits userId chainFilter).map Prod.fst ↔
      0 < tokenGroupSum credits userId chainFilter key := by
  unfold getBalanceByToken
  simp only [List.map_map]
  constructor
  · intro hmem
    simp only [List.mem_map, List.mem_filter] at hmem
    obtain ⟨k, ⟨-, hk⟩, hfst⟩ := hmem
    have : k = key := by simpa using hfst
    subst this
    simpa using hk
  · intro hpos
    have hex : ∃ c ∈ credits.filter (balanceByTokenWhere userId chainFilter),
        creditGroupKey c = key := by
      by_contra hno
      push_neg at hno
      have hnil : (credits.filter (balanceByTokenWhere userId chainFilter)).filter
          (fun c => creditGroupKey c == key) = [] := by
        rw [List.filter_eq_nil_iff]
        intro c hc
        simp only [beq_iff_eq]
        exact hno c hc
      have : tokenGroupSum credits userId chainFilter key = 0 := by
        unfold tokenGroupSum
        rw [hnil]
        simp
      rw [this] at hpos
      exact absurd hpos (by norm_num)
    obtain ⟨c, hc, hkey⟩ := hex
    refine List.mem_map.mpr ⟨key, List.mem_filter.mpr ⟨?_, by simpa using hpos⟩, rfl⟩
    rw [List.mem_dedup]
    exact List.mem_map.mpr ⟨c, hc, hkey⟩

/-- The negative-confirmation guard leaves the row and the credits unchanged. -/
theorem processTransactionRow_neg (cb fb latestBlock : Int) (tx : TransactionRow)
    (credits : List Credit) (h0 : latestBlock - tx.blockNo < 0) :
    processTransactionRow cb fb latestBlock tx credits = (tx, credits) := by
  unfold processTransactionRow
  rw [if_pos h0]

/-- With a nonnegative confirmation count the new status is the threshold
if-chain, whether or not the status changed. -/
theorem processTransactionRow_status (cb fb latestBlock : Int) (tx : TransactionRow)
    (credits : List Credit) (h0 : ¬(latestBlock - tx.blockNo < 0)) :
    (processTransactionRow cb fb latestBlock tx credits).1.status =
      (if latestBlock - tx.blockNo ≥ fb then "finalized"
       else if latestBlock - tx.blockNo ≥ cb then "safe"
       else "confirmed") := by
  unfold processTransactionRow
  rw [if_neg h0]
  by_cases hne : tx.status ≠
      (if latestBlock - tx.blockNo ≥ fb then "finalized"
       else if latestBlock - tx.blockNo ≥ cb then "safe"
       else "confirmed")
  · rw [if_pos hne]
  · rw [if_neg hne]
    push_neg at hne
    exact hne

/-- With a nonnegative confirmation count the confirmation_count column is
written in either branch. -/
theorem processTransactionRow_count (cb fb latestBlock : Int) (tx : TransactionRow)
    (credits : List Credit) (h0 : ¬(latestBlock - tx.blockNo < 0)) :
    (processTransactionRow cb fb latestBlock tx credits).1.confirmationCount =
      some (latestBlock - tx.blockNo) := by
  unfold processTransactionRow
  rw [if_neg h0]
  dsimp only
  repeat' split
  all_goals rfl

/-- When the status changed the pair is the rewritten row together with the
credit fan-out. -/
theorem processTransactionRow_changed (cb fb latestBlock : Int) (tx : TransactionRow)
    (credits : List Credit) (h0 : ¬(latestBlock - tx.blockNo < 0))
    (hne : tx.status ≠
      (if latestBlock - tx.blockNo ≥ fb then "finalized"
       else if latestBlock - tx.blockNo ≥ cb then "safe"
       else "confirmed")) :
    processTransactionRow cb fb latestBlock tx credits =
      ({ tx with
          status :=
            (if latestBlock - tx.blockNo ≥ fb then "finalized"
             else if latestBlock - tx.blockNo ≥ cb then "safe"
             else "confirmed"),
          confirmationCount := some (latestBlock - tx.blockNo) },
        updateCreditStatus credits tx.id
          (if latestBlock - tx.blockNo ≥ fb then "finalized"
           else if latestBlock - tx.blockNo ≥ cb then "safe"
           else "confirmed")) := by
  unfold processTransactionRow
  rw [if_neg h0, if_pos hne]

/-- When the status is already current only the confirmation count is written
and the credits are untouched. -/
theorem processTransactionRow_unchanged (cb fb latestBlock : Int) (tx : TransactionRow)
    (credits : List Credit) (h0 : ¬(latestBlock - tx.blockNo < 0))
    (heq : tx.status =
      (if latestBlock - tx.blockNo ≥ fb then "finalized"
       else if latestBlock - tx.blockNo ≥ cb then "safe"
       else "confirmed")) :
    processTransactionRow cb fb latestBlock tx credits =
      ({ tx with confirmationCount := some (latestBlock - tx.blockNo) }, credits) := by
  unfold processTransactionRow
  rw [if_neg h0, if_neg (by simpa using heq)]

/-- The credit fan-out for a mapped status rewrites exactly the rows
referencing the transaction. -/
theorem updateCreditStatus_mapped (credits : List Credit) (txId : String)
    (txStatus creditStatus : String)
    (hm : mapTransactionToCreditStatus txStatus = some creditStatus) :
    updateCreditStatus credits txId txStatus =
      credits.map (fun c =>
        if c.referenceId == txId && c.referenceType == "blockchain_tx" then
          { c with status := creditStatus }
        else c) := by
  unfold updateCreditStatus
  rw [hm]

/-- C1: one confirmation-state update step on a transactions row with status
confirmed, safe or finalized computes conf = latest - block_no; a negative
conf leaves the row and the credits unchanged; otherwise the new status is
finalized when conf is at least finalized_blocks, safe when it is at least
confirmation_blocks but below finalized_blocks, and confirmed otherwise, the
confirmation count is written, and exactly when the status changed every
credit row with reference (tx.id, blockchain_tx) receives the mapped credit
status (confirmed for tx confirmed or safe, finalized for finalized, failed
for failed); when only the count changed the credits are untouched and only
the confirmation_count column of the row is written. -/
theorem confirmation_state_update_spec (chain : ChainRow) (latestBlock : Int)
    (tx : TransactionRow) (credits : List Credit)
    (h : tx.status = "confirmed" ∨ tx.status = "safe" ∨ tx.status = "finalized") :
    (latestBlock - tx.blockNo < 0 →
      processTransactionRow (effectiveConfirmationBlocks chain)
        (effectiveFinalizedBlocks chain) latestBlock tx credits = (tx, credits)) ∧
    (0 ≤ latestBlock - tx.blockNo →
      ((effectiveFinalizedBlocks chain ≤ latestBlock - tx.blockNo →
        (processTransactionRow (effectiveConfirmationBlocks chain)
          (effectiveFinalizedBlocks chain) latestBlock tx credits).1.status = "finalized") ∧
       (effectiveConfirmationBlocks chain ≤ latestBlock - tx.blockNo →
        latestBlock - tx.blockNo < effectiveFinalizedBlocks chain →
        (processTransactionRow (effectiveConfirmationBlocks chain)
          (effectiveFinalizedBlocks chain) latestBlock tx credits).1.status = "safe") ∧
       (latestBlock - tx.blockNo < effectiveConfirmationBlocks chain →
        latestBlock - tx.blockNo < effectiveFinalizedBlocks chain →
        (processTransactionRow (effectiveConfirmationBlocks chain)
          (effectiveFinalizedBlocks chain) latestBlock tx credits).1.status = "confirmed") ∧
       (processTransactionRow (effectiveConfirmationBlocks chain)
          (effectiveFinalizedBlocks chain) latestBlock tx credits).1.confirmationCount =
         some (latestBlock - tx.blockNo) ∧
       (tx.status ≠ (processTransactionRow (effectiveConfirmationBlocks chain)
          (effectiveFinalizedBlocks chain) latestBlock tx credits).1.status →
        ∃ cs, mapTransactionToCreditStatus
            (processTransactionRow (effectiveConfirmationBlocks chain)
              (effectiveFinalizedBlocks chain) latestBlock tx credits).1.status = some cs ∧
          (processTransactionRow (effectiveConfirmationBlocks chain)
            (effectiveFinalizedBlocks chain) latestBlock tx credits).2 =
            credits.map (fun c =>
              if c.referenceId == tx.id && c.referenceType == "blockchain_tx" then
                { c with status := cs }
              else c)) ∧
       (tx.status = (processTransactionRow (effectiveConfirmationBlocks chain)
          (effectiveFinalizedBlocks chain) latestBlock tx credits).1.status →
        processTransactionRow (effectiveConfirmationBlocks chain)
          (effectiveFinalizedBlocks chain) latestBlock tx credits =
          ({ tx with confirmationCount := some (latestBlock - tx.blockNo) }, credits)))) ∧
    mapTransactionToCreditStatus "confirmed" = some "confirmed" ∧
    mapTransactionToCreditStatus "safe" = some "confirmed" ∧
    mapTransactionToCreditStatus "finalized" = some "finalized" ∧
    mapTransactionToCreditStatus "failed" = some "failed" := by
  set cb := effectiveConfirmationBlocks chain with hcb
  set fb := effectiveFinalizedBlocks chain with hfb
  refine ⟨processTransactionRow_neg cb fb latestBlock tx credits, ?_, rfl, rfl, rfl, rfl⟩
  intro h0
  have h0' : ¬(latestBlock - tx.blockNo < 0) := not_lt.mpr h0
  have hstat := processTransactionRow_status cb fb latestBlock tx credits h0'
  refine ⟨?_, ?_, ?_, processTransactionRow_count cb fb latestBlock tx credits h0', ?_, ?_⟩
  · intro hfin
    rw [hstat, if_pos hfin]
  · intro hc hf
    rw [hstat, if_neg (not_le.mpr hf), if_pos hc]
  · intro hc hf
    rw [hstat, if_neg (not_le.mpr hf), if_neg (not_le.mpr hc)]
  · intro hne
    rw [hstat] at hne
    have hch := processTransactionRow_changed cb fb latestBlock tx credits h0' hne
    have hmap : ∃ cs, mapTransactionToCreditStatus
        (if latestBlock - tx.blockNo ≥ fb then "finalized"
         else if latestBlock - tx.blockNo ≥ cb then "safe"
         else "confirmed") = some cs := by
      split
      · exact ⟨"finalized", rfl⟩
      · split
        · exact ⟨"confirmed", rfl⟩
        · exact ⟨"confirmed", rfl⟩
    obtain ⟨cs, hcs⟩ := hmap
    refine ⟨cs, ?_, ?_⟩
    · rw [hstat]
      exact hcs
    · rw [hch]
      show updateCreditStatus credits tx.id _ = _
      rw [updateCreditStatus_mapped credits tx.id _ cs hcs]
  · intro heq
    rw [hstat] at heq
    exact processTransactionRow_unchanged cb fb latestBlock tx credits h0' heq

/-- Witness for C1: chain thresholds (12, 32), latest block 150, a safe
transaction at block 100 (conf = 50) becomes finalized. -/
theorem confirmation_state_update_spec_witness :
    (processTransactionRow (effectiveConfirmationBlocks ⟨56, true, some 12, some 32⟩)
      (effectiveFinalizedBlocks ⟨56, true, some 12, some 32⟩) 150
      ⟨"t1", 56, 1, 100, 2, 3, 4, none, 1000, "deposit", "safe", some 10⟩
      [⟨"u1", "0xa", 7, "USDT", 5, "deposit", "blockchain", "t1", "blockchain_tx",
        some 56, some 100, "confirmed"⟩]).1.status = "finalized" := by
  have h := (confirmation_state_update_spec ⟨56, true, some 12, some 32⟩ 150
    ⟨"t1", 56, 1, 100, 2, 3, 4, none, 1000, "deposit", "safe", some 10⟩
    [⟨"u1", "0xa", 7, "USDT", 5, "deposit", "blockchain", "t1", "blockchain_tx",
      some 56, some 100, "confirmed"⟩] (Or.inr (Or.inl rfl))).2.1 (by decide)
  exact h.1 (by decide)

/-- C7: RequestWithdraw rejects a nonpositive amount with the invalid-amount
error and an insufficient available balance with the insufficient-balance
error, persisting nothing on any error path (the transaction rolls back); on
success it persists exactly one withdraw row with status
user_withdraw_request and fee 0 together with exactly one paired credit row
with credit_type withdraw, the negated amount, status frozen and reference
(withdraw.id, withdraw). -/
theorem requestWithdraw_spec (st : WithdrawState) (userId : String)
    (req : WithdrawRequest) (freshWithdrawId : String)
    (withdrawInsertOk creditInsertOk : Bool) :
    (req.amount ≤ 0 →
      requestWithdraw st userId req freshWithdrawId withdrawInsertOk creditInsertOk =
        .error "invalid amount") ∧
    (∀ token, ¬req.amount ≤ 0 →
      st.tokens.find? (fun t => t.id == req.tokenId) = some token →
      getAvailableBalance st.credits userId token.chainId token.id < req.amount →
      requestWithdraw st userId req freshWithdrawId withdrawInsertOk creditInsertOk =
        .error "insufficient balance") ∧
    (∀ e, requestWithdraw st userId req freshWithdrawId withdrawInsertOk creditInsertOk =
        .error e →
      requestWithdrawFinalState st userId req freshWithdrawId withdrawInsertOk
        creditInsertOk = st) ∧
    (∀ w st2,
      requestWithdraw st userId req freshWithdrawId withdrawInsertOk creditInsertOk =
        .ok (w, st2) →
      w.id = freshWithdrawId ∧ w.status = "user_withdraw_request" ∧ w.fee = 0 ∧
      w.amount = req.amount ∧ w.userId = userId ∧
      st2.tokens = st.tokens ∧ st2.wallets = st.wallets ∧
      st2.withdraws = st.withdraws ++ [w] ∧
      ∃ cr, st2.credits = st.credits ++ [cr] ∧ cr.creditType = "withdraw" ∧
        cr.amount = -req.amount ∧ cr.status = "frozen" ∧ cr.userId = userId ∧
        cr.referenceId = w.id ∧ cr.referenceType = "withdraw") := by
  refine ⟨?_, ?_, ?_, ?_⟩
  · intro hle
    unfold requestWithdraw
    rw [if_pos hle]
  · intro token hpos htok hbal
    unfold requestWithdraw
    rw [if_neg hpos, htok]
    exact if_pos hbal
  · intro e herr
    unfold requestWithdrawFinalState
    rw [herr]
  · intro w st2 hok
    unfold requestWithdraw at hok
    split at hok
    · simp at hok
    split at hok
    · simp at hok
    split at hok
    · simp at hok
    split at hok
    · simp at hok
    split at hok
    · simp at hok
    split at hok
    · simp at hok
    rw [Except.ok.injEq, Prod.mk.injEq] at hok
    obtain ⟨hw, hst⟩ := hok
    subst hw
    subst hst
    exact ⟨rfl, rfl, rfl, rfl, rfl, rfl, rfl, rfl, _, rfl, rfl, rfl, rfl, rfl, rfl, rfl⟩

/-- Witness for C7: a zero-amount request is rejected with the invalid-amount
error. -/
theorem requestWithdraw_spec_witness :
    requestWithdraw ⟨[], [], [], []⟩ "u1" ⟨"0xdead", 7, 0⟩ "w1" true true =
      .error "invalid amount" :=
  (requestWithdraw_spec ⟨[], [], [], []⟩ "u1" ⟨"0xdead", 7, 0⟩ "w1" true true).1
    (by norm_num)

/-- Counterexample to C9: with an active chain and an existing wallet for the
user, CreateWallet returns the existing wallet with no error (the claim says
the conflict is surfaced as an error); the state is unchanged. -/
theorem createWallet_existing_counterexample :
    createWallet (fun _ => "0xAbC") (fun _ => "p")
      ⟨[⟨56, true, none, none⟩],
        [⟨"u1", "0xabc", "evm", 56, "m", 0, "user", none⟩], []⟩ "u1" 56 =
      .ok (⟨"u1", "0xabc", "evm", 56, "m", 0, "user", none⟩,
        ⟨[⟨56, true, none, none⟩],
          [⟨"u1", "0xabc", "evm", 56, "m", 0, "user", none⟩], []⟩) := by
  rfl

/-- C9 (amended): creating a wallet for a user who already has one on the
chain returns the existing wallet without error and leaves the state
unchanged — no new wallet row is inserted and no address index is
allocated. -/
theorem createWallet_existing_returns_existing (derive pathOf : Int → String)
    (st : WalletServiceState) (userId : String) (chainId : Int)
    (chain : ChainRow) (existing : WalletRow)
    (hchain : st.chains.find? (fun c => c.chainId == chainId && c.isActive) = some chain)
    (hw : st.wallets.find? (fun w => w.userId == userId && w.chainId == chainId) =
      some existing) :
    createWallet derive pathOf st userId chainId = .ok (existing, st) := by
  unfold createWallet
  rw [hchain, hw]

/-- Witness for C9's amended claim at the counterexample state. -/
theorem createWallet_existing_returns_existing_witness :
    createWallet (fun _ => "0xAbC") (fun _ => "p")
      ⟨[⟨56, true, none, none⟩],
        [⟨"u1", "0xabc", "evm", 56, "m", 0, "user", none⟩], []⟩ "u1" 56 =
      .ok (⟨"u1", "0xabc", "evm", 56, "m", 0, "user", none⟩,
        ⟨[⟨56, true, none, none⟩],
          [⟨"u1", "0xabc", "evm", 56, "m", 0, "user", none⟩], []⟩) :=
  createWallet_existing_returns_existing (fun _ => "0xAbC") (fun _ => "p")
    ⟨[⟨56, true, none, none⟩],
      [⟨"u1", "0xabc", "evm", 56, "m", 0, "user", none⟩], []⟩ "u1" 56
    ⟨56, true, none, none⟩ ⟨"u1", "0xabc", "evm", 56, "m", 0, "user", none⟩
    (by rfl) (by rfl)

/-- A log failing the Transfer-event match leaves the analyzer state
unchanged. -/
theorem analyzeOneLog_not_matching (chainId : Int) (txHash : Nat)
    (blockNumber : Int) (blockHash : Nat) (db : AnalyzerDB) (x : EthLog)
    (hx : isMatchingTransferLog db.wallets chainId x = false) :
    analyzeOneLog chainId txHash blockNumber blockHash db x = db := by
  unfold analyzeOneLog
  unfold isMatchingTransferLog at hx
  by_cases h1 : x.topics.length < 3
  · rw [if_pos h1]
  · rw [if_neg h1]
    by_cases h2 : x.topics.getD 0 0 ≠ transferEventSignature
    · rw [if_pos h2]
    · rw [if_neg h2]
      push_neg at h2
      have hlen : 3 ≤ x.topics.length := not_lt.mp h1
      cases hu : isUserAddress db.wallets chainId (topicToAddress (x.topics.getD 2 0))
      · rw [if_pos (by simp [hu])]
      · exfalso
        rw [hu, decide_eq_true hlen, beq_iff_eq.mpr h2] at hx
        simp at hx

/-- With a transactions row already present for (chain_id, tx_hash) the log
loop body inserts nothing. -/
theorem analyzeOneLog_exists (chainId : Int) (txHash : Nat) (blockNumber : Int)
    (blockHash : Nat) (db : AnalyzerDB) (x : EthLog)
    (hex : transactionExists db.transactions chainId txHash = true) :
    analyzeOneLog chainId txHash blockNumber blockHash db x = db := by
  unfold analyzeOneLog
  by_cases h1 : x.topics.length < 3
  · rw [if_pos h1]
  · rw [if_neg h1]
    by_cases h2 : x.topics.getD 0 0 ≠ transferEventSignature
    · rw [if_pos h2]
    · rw [if_neg h2]
      cases hu : isUserAddress db.wallets chainId (topicToAddress (x.topics.getD 2 0))
      · rw [if_pos (by simp [hu])]
      · rw [if_neg (by simp [hu]), if_pos hex]

/-- Once the (chain_id, tx_hash) row exists the whole remaining log loop is a
no-op. -/
theorem analyzeFold_exists (chainId : Int) (txHash : Nat) (blockNumber : Int)
    (blockHash : Nat) (db : AnalyzerDB) (logs : List EthLog)
    (hex : transactionExists db.transactions chainId txHash = true) :
    logs.foldl (analyzeOneLog chainId txHash blockNumber blockHash) db = db := by
  induction logs with
  | nil => rfl
  | cons x t ih =>
      rw [List.foldl_cons,
        analyzeOneLog_exists chainId txHash blockNumber blockHash db x hex]
      exact ih

/-- A prefix of non-matching logs leaves the analyzer state unchanged. -/
theorem analyzeFold_skip (chainId : Int) (txHash : Nat) (blockNumber : Int)
    (blockHash : Nat) (db : AnalyzerDB) (pre : List EthLog)
    (hpre : ∀ x ∈ pre, isMatchingTransferLog db.wallets chainId x = false) :
    pre.foldl (analyzeOneLog chainId txHash blockNumber blockHash) db = db := by
  induction pre with
  | nil => rfl
  | cons x t ih =>
      rw [List.foldl_cons,
        analyzeOneLog_not_matching chainId txHash blockNumber blockHash db x
          (hpre x (List.mem_cons_self x t))]
      exact ih (fun y hy => hpre y (List.mem_cons_of_mem x hy))

/-- A matching log with no pre-existing row inserts exactly its deposit row. -/
theorem analyzeOneLog_matching (chainId : Int) (txHash : Nat) (blockNumber : Int)
    (blockHash : Nat) (db : AnalyzerDB) (l : EthLog)
    (hnew : transactionExists db.transactions chainId txHash = false)
    (hl : isMatchingTransferLog db.wallets chainId l = true) :
    analyzeOneLog chainId txHash blockNumber blockHash db l =
      { db with transactions :=
          db.transactions ++ [mkErc20DepositRow chainId txHash blockNumber blockHash l] } := by
  unfold analyzeOneLog
  unfold isMatchingTransferLog at hl
  simp only [Bool.and_eq_true, decide_eq_true_eq, beq_iff_eq] at hl
  obtain ⟨⟨hlen, hsig⟩, huser⟩ := hl
  rw [if_neg (not_lt.mpr hlen), if_neg (not_ne_iff.mpr hsig),
    if_neg (by rw [huser]; decide), if_neg (by rw [hnew]; decide)]

/-- The inserted deposit row makes the (chain_id, tx_hash) existence check
true. -/
theorem transactionExists_after_insert (chainId : Int) (txHash : Nat)
    (blockNumber : Int) (blockHash : Nat) (rows : List TransactionRow) (l : EthLog) :
    transactionExists (rows ++ [mkErc20DepositRow chainId txHash blockNumber blockHash l])
      chainId txHash = true := by
  unfold transactionExists mkErc20DepositRow
  simp

/-- C4 (amended): on a successful receipt with no pre-existing (chain_id,
tx_hash) row, the ERC-20 analyzer inserts exactly one deposit row, built from
the first Transfer log whose to-address is tracked; every later log of the
transaction is skipped by the existence re-check, because the freshly
inserted row shares the transaction hash.  In particular two qualifying
Transfer logs yield one row, not two. -/
theorem analyzeERC20Transfers_first_log_only (chainId : Int) (txHash : Nat)
    (receipt : EthReceipt) (blockNumber : Int) (blockHash : Nat) (db : AnalyzerDB)
    (hstatus : receipt.status = 1)
    (hnew : transactionExists db.transactions chainId txHash = false)
    (pre : List EthLog) (l : EthLog) (post : List EthLog)
    (hlogs : receipt.logs = pre ++ l :: post)
    (hpre : ∀ x ∈ pre, isMatchingTransferLog db.wallets chainId x = false)
    (hl : isMatchingTransferLog db.wallets chainId l = true) :
    analyzeERC20Transfers chainId txHash receipt blockNumber blockHash db =
      { db with transactions :=
          db.transactions ++ [mkErc20DepositRow chainId txHash blockNumber blockHash l] } := by
  unfold analyzeERC20Transfers
  rw [if_neg (by simp [hstatus]), hlogs, List.foldl_append,
    analyzeFold_skip chainId txHash blockNumber blockHash db pre hpre,
    List.foldl_cons,
    analyzeOneLog_matching chainId txHash blockNumber blockHash db l hnew hl]
  exact analyzeFold_exists chainId txHash blockNumber blockHash _ post
    (transactionExists_after_insert chainId txHash blockNumber blockHash db.transactions l)

/-- Counterexample to C4: a successful receipt with two qualifying Transfer
logs to the tracked address 77 inserts one transactions row, not one row per
log. -/
theorem analyzeERC20Transfers_two_logs_counterexample :
    (analyzeERC20Transfers 56 999
      ⟨1, [⟨500, [transferEventSignature, 1, 77], [1, 0]⟩,
           ⟨500, [transferEventSignature, 1, 77], [2, 0]⟩]⟩
      100 888 ⟨[(56, 77)], []⟩).transactions.length = 1 ∧
    ((⟨1, [⟨500, [transferEventSignature, 1, 77], [1, 0]⟩,
           ⟨500, [transferEventSignature, 1, 77], [2, 0]⟩]⟩ : EthReceipt).logs.filter
        (isMatchingTransferLog [(56, 77)] 56)).length = 2 ∧
    (analyzeERC20Transfers 56 999
      ⟨1, [⟨500, [transferEventSignature, 1, 77], [1, 0]⟩,
           ⟨500, [transferEventSignature, 1, 77], [2, 0]⟩]⟩
      100 888 ⟨[(56, 77)], []⟩).transactions.length ≠ 2 := by
  refine ⟨by decide, by decide, by decide⟩

/-- Witness for C4's amended claim: the two-log receipt yields exactly the
first log's deposit row. -/
theorem analyzeERC20Transfers_first_log_only_witness :
    analyzeERC20Transfers 56 999
      ⟨1, [⟨500, [transferEventSignature, 1, 77], [1, 0]⟩,
           ⟨500, [transferEventSignature, 1, 77], [2, 0]⟩]⟩
      100 888 ⟨[(56, 77)], []⟩ =
      ⟨[(56, 77)],
        [mkErc20DepositRow 56 999 100 888 ⟨500, [transferEventSignature, 1, 77], [1, 0]⟩]⟩ :=
  analyzeERC20Transfers_first_log_only 56 999
    ⟨1, [⟨500, [transferEventSignature, 1, 77], [1, 0]⟩,
         ⟨500, [transferEventSignature, 1, 77], [2, 0]⟩]⟩
    100 888 ⟨[(56, 77)], []⟩ rfl rfl
    [] ⟨500, [transferEventSignature, 1, 77], [1, 0]⟩
    [⟨500, [transferEventSignature, 1, 77], [2, 0]⟩] rfl
    (fun x hx => absurd hx (List.not_mem_nil x)) (by decide)

/-- C3: evaluation of the scanner at the failing input.  Stored blocks 10
(hash 0xA) and 11 (hash 0xB, child of 0xA) with a transaction on 0xB and a
credit at block 11; the canonical block 11 arrives with hash 0xB2 and parent
0xA2 that differs from the stored 0xA.  The reorg handler orphans the stored
block 11 and fails its transaction and credit as the claim says, but the
canonical block is then NOT persisted as a fresh row: blockExists also
matches the just-orphaned row by number, so the scanner skips the insert. -/
theorem scanBlockPersist_reorg_skips_reinsert :
    scanBlockPersist 1 ⟨0xB2, 0xA2, 11, 1002⟩
      ⟨[⟨0xA, 1, 0x9, 10, 1000, "confirmed"⟩, ⟨0xB, 1, 0xA, 11, 1001, "confirmed"⟩],
       [⟨"t1", 1, 0xB, 11, 0x77, 1, 2, none, 500, "deposit", "confirmed", some 1⟩],
       [⟨"u1", "0xa", 7, "USDT", 5, "deposit", "blockchain", "t1", "blockchain_tx",
         some 1, some 11, "finalized"⟩]⟩ =
      ⟨[⟨0xA, 1, 0x9, 10, 1000, "confirmed"⟩, ⟨0xB, 1, 0xA, 11, 1001, "orphaned"⟩],
       [⟨"t1", 1, 0xB, 11, 0x77, 1, 2, none, 500, "deposit", "failed", some 1⟩],
       [⟨"u1", "0xa", 7, "USDT", 5, "deposit", "blockchain", "t1", "blockchain_tx",
         some 1, some 11, "failed"⟩]⟩ ∧
    ((scanBlockPersist 1 ⟨0xB2, 0xA2, 11, 1002⟩
      ⟨[⟨0xA, 1, 0x9, 10, 1000, "confirmed"⟩, ⟨0xB, 1, 0xA, 11, 1001, "confirmed"⟩],
       [⟨"t1", 1, 0xB, 11, 0x77, 1, 2, none, 500, "deposit", "confirmed", some 1⟩],
       [⟨"u1", "0xa", 7, "USDT", 5, "deposit", "blockchain", "t1", "blockchain_tx",
         some 1, some 11, "finalized"⟩]⟩).blocks.find? (fun b => b.hash == 0xB2)) =
      none := by
  refine ⟨by decide, by decide⟩

/-! ## Address rendering theorems (C6) -/

set_option maxRecDepth 10000 in
/-- Sanity vector: Keccak-256 of the empty input is the well-known Ethereum
empty hash c5d246…a470. -/
theorem keccak256_nil_vector :
    keccak256 [] =
      [0xc5, 0xd2, 0x46, 0x01, 0x86, 0xf7, 0x23, 0x3c, 0x92, 0x7e, 0x7d, 0xb2,
       0xdc, 0xc7, 0x03, 0xc0, 0xe5, 0x00, 0xb6, 0x53, 0xca, 0x82, 0x27, 0x3b,
       0x7b, 0xfa, 0xd8, 0x04, 0x5d, 0x85, 0xa4, 0x70] := by
  decide

set_option maxRecDepth 10000 in
/-- Sanity vector: the EIP-55 checksum rendering of the test address
5aaeb6053f3e94c9b9a09f33669435e7ef1beaed from the EIP. -/
theorem checksumAddressChars_eip55_vector :
    checksumAddressChars
      [0x5a, 0xae, 0xb6, 0x05, 0x3f, 0x3e, 0x94, 0xc9, 0xb9, 0xa0,
       0x9f, 0x33, 0x66, 0x94, 0x35, 0xe7, 0xef, 0x1b, 0xea, 0xed] =
      "5aAeb6053F3E94C9b9A09f33669435E7Ef1BeAed".toList := by
  decide

/-- Reading a list back off by position is the identity. -/
theorem range_map_getD {α : Type} (l : List α) (d : α) :
    (List.range l.length).map (fun i => l.getD i d) = l := by
  induction l with
  | nil => rfl
  | cons a t ih =>
      rw [List.length_cons, List.range_succ_eq_map, List.map_cons, List.map_map]
      have hcomp : ((fun i => (a :: t).getD i d) ∘ Nat.succ) = (fun i => t.getD i d) := rfl
      rw [hcomp, ih]
      rfl

/-- Every character of a lowercase hex rendering is a hex digit character of
some nibble. -/
theorem bytesToLowerHexChars_form (bs : List Nat) :
    ∀ c ∈ bytesToLowerHexChars bs, ∃ k, k < 16 ∧ c = hexDigitChar k := by
  induction bs with
  | nil => intro c hc; cases hc
  | cons b t ih =>
      intro c hc
      rcases List.mem_cons.mp hc with h | hc2
      · exact ⟨b / 16 % 16, Nat.mod_lt _ (by norm_num), h⟩
      · rcases List.mem_cons.mp hc2 with h | hc3
        · exact ⟨b % 16, Nat.mod_lt _ (by norm_num), h⟩
        · exact ih c hc3

/-- checksumChar written as a plain if. -/
theorem checksumChar_eq (c : Char) (nib : Nat) :
    checksumChar c nib =
      if (decide (c.toNat > 57) && decide (nib > 7)) = true then
        Char.ofNat (c.toNat - 32)
      else c := rfl

/-- ASCII lowercasing undoes the EIP-55 casing of any hex digit character. -/
theorem asciiLowerChar_checksumChar (k : Nat) (hk : k < 16) (nib : Nat) :
    asciiLowerChar (checksumChar (hexDigitChar k) nib) = hexDigitChar k := by
  by_cases h7 : 7 < nib
  · by_cases h5 : 57 < (hexDigitChar k).toNat
    · have hc : checksumChar (hexDigitChar k) nib =
          Char.ofNat ((hexDigitChar k).toNat - 32) := by
        rw [checksumChar_eq, if_pos (by simp [h5, h7])]
      rw [hc]
      interval_cases k <;> revert h5 <;> decide
    · have hc : checksumChar (hexDigitChar k) nib = hexDigitChar k := by
        rw [checksumChar_eq, if_neg (by simp [h5])]
      rw [hc]
      interval_cases k <;> decide
  · have hc : checksumChar (hexDigitChar k) nib = hexDigitChar k := by
      rw [checksumChar_eq, if_neg (by simp [h7])]
    rw [hc]
    interval_cases k <;> decide

/-- ASCII lowercasing the checksummed rendering recovers the lowercase
rendering. -/
theorem asciiLower_checksumAddressChars (bs : List Nat) :
    asciiLower (checksumAddressChars bs) = bytesToLowerHexChars bs := by
  unfold checksumAddressChars asciiLower
  rw [List.map_map]
  rw [List.map_congr_left (l := List.range (bytesToLowerHexChars bs).length)
    (f := _) (g := fun i => (bytesToLowerHexChars bs).getD i '0') ?_]
  · exact range_map_getD _ _
  · intro i hi
    dsimp only [Function.comp_apply]
    have hlt : i < (bytesToLowerHexChars bs).length := List.mem_range.mp hi
    have hmem : (bytesToLowerHexChars bs).getD i '0' ∈ bytesToLowerHexChars bs := by
      rw [List.getD_eq_getElem _ _ hlt]
      exact List.getElem_mem hlt
    obtain ⟨k, hk, hck⟩ := bytesToLowerHexChars_form bs _ hmem
    rw [hck]
    exact asciiLowerChar_checksumChar k hk _

/-- C6 (amended): DeriveAddress returns 0x followed by the EIP-55 checksummed
(mixed-case) hex of the last 20 bytes of the Keccak-256 of the public key —
its ASCII lowercasing is the string the claim describes; CreateWallet stores
a user wallet's address lower-cased, so user rows do hold the lowercase hex,
but CreateHotWallet stores the derived address unchanged, so hot rows hold
the checksummed form. -/
theorem deriveAddress_checksummed (pub : List Nat) :
    asciiLower (deriveAddressHexChars pub) = addressLowerHexChars pub ∧
    createWalletStoredAddress pub = addressLowerHexChars pub ∧
    createHotWalletStoredAddress pub = deriveAddressHexChars pub := by
  have h1 : asciiLower (deriveAddressHexChars pub) = addressLowerHexChars pub := by
    unfold deriveAddressHexChars addressLowerHexChars asciiLower
    simp only [List.map_cons]
    have h0 : asciiLowerChar '0' = '0' := rfl
    have hx : asciiLowerChar 'x' = 'x' := rfl
    rw [h0, hx]
    have := asciiLower_checksumAddressChars (pubkeyToAddressBytes pub)
    unfold asciiLower at this
    rw [this]
  exact ⟨h1, h1, rfl⟩

set_option maxRecDepth 10000 in
/-- Counterexample to C6: for the 64-byte public key of all 1-bytes the
derived address string is the EIP-55 checksummed form, which differs from the
lowercase hex the claim describes, and the hot-wallet row stores exactly that
mixed-case form. -/
theorem deriveAddress_not_lowercase_counterexample :
    deriveAddressHexChars (List.replicate 64 1) ≠
      addressLowerHexChars (List.replicate 64 1) ∧
    createHotWalletStoredAddress (List.replicate 64 1) ≠
      addressLowerHexChars (List.replicate 64 1) := by
  exact ⟨by decide, by decide⟩

/-! ## Keystore theorems (C5) -/

/-- Positional read of a map over a range. -/
theorem getD_map_range {α : Type} (f : Nat → α) (d : α) {n i : Nat} (h : i < n) :
    ((List.range n).map f).getD i d = f i := by
  rw [List.getD_eq_getElem _ _ (by simpa using h)]
  simp

/-- A Nat or is zero only when both parts are. -/
theorem or_eq_zero_parts {a b : Nat} (h : a ||| b = 0) : a = 0 ∧ b = 0 := by
  refine ⟨?_, ?_⟩ <;>
    (apply Nat.eq_of_testBit_eq
     intro i
     have ht := congrArg (fun x => Nat.testBit x i) h
     simp only [Nat.testBit_or, Nat.zero_testBit, Bool.or_eq_false_iff] at ht
     simp [Nat.zero_testBit, ht.1, ht.2])

/-- Decoding inverts encoding on byte lists. -/
theorem hexDecode_hexEncode (bs : List Nat) (h : ∀ b ∈ bs, b < 256) :
    hexDecode (hexEncode bs) = some bs := by
  induction bs with
  | nil => rfl
  | cons b t ih =>
      have hb : b < 256 := h b (List.mem_cons_self b t)
      have c1 : b / 16 % 16 < 16 := Nat.mod_lt _ (by norm_num)
      have c2 : b % 16 < 16 := Nat.mod_lt _ (by norm_num)
      show hexDecode ((b / 16 % 16) :: (b % 16) :: hexEncode t) = some (b :: t)
      unfold hexDecode
      rw [if_pos (by simp [c1, c2]), ih (fun x hx => h x (List.mem_cons_of_mem b hx))]
      have hbyte : 16 * (b / 16 % 16) + b % 16 = b := by omega
      show some ((16 * (b / 16 % 16) + b % 16) :: t) = some (b :: t)
      rw [hbyte]

/-- CTR decryption inverts CTR encryption under the same key and IV. -/
theorem decrypt_encrypt_ctr (prims : CryptoPrims) (key iv m : List Nat) :
    decryptAES128CTR prims key iv (encryptAES128CTR prims key iv m) = m := by
  unfold decryptAES128CTR encryptAES128CTR
  rw [List.length_map, List.length_range]
  have hpoint : ∀ i ∈ List.range m.length,
      prims.ctrKeystream key iv i ^^^
        (((List.range m.length).map
          (fun j => prims.ctrKeystream key iv j ^^^ m.getD j 0)).getD i 0) =
      m.getD i 0 := by
    intro i hi
    rw [getD_map_range _ 0 (List.mem_range.mp hi)]
    exact Nat.xor_cancel_left _ _
  rw [List.map_congr_left hpoint, range_map_getD]

/-- The OR-accumulated self-XOR fold of constantTimeCompare is the identity on
the accumulator. -/
theorem foldl_or_xor_self (l : List Nat) :
    ∀ acc, (List.zip l l).foldl (fun a p => a ||| (p.1 ^^^ p.2)) acc = acc := by
  induction l with
  | nil => intro acc; rfl
  | cons x t ih =>
      intro acc
      rw [List.zip_cons_cons, List.foldl_cons]
      have hx : acc ||| (x ^^^ x) = acc := by rw [Nat.xor_self, Nat.or_zero]
      rw [hx]
      exact ih acc

/-- constantTimeCompare accepts equal inputs. -/
theorem constantTimeCompare_self (a : List Nat) : constantTimeCompare a a = true := by
  unfold constantTimeCompare
  rw [if_neg (by simp), foldl_or_xor_self a 0]
  rfl

/-- A zero OR-fold forces the accumulator and every XOR to be zero. -/
theorem foldl_or_eq_zero (l : List (Nat × Nat)) :
    ∀ acc, l.foldl (fun a p => a ||| (p.1 ^^^ p.2)) acc = 0 →
      acc = 0 ∧ ∀ p ∈ l, p.1 ^^^ p.2 = 0 := by
  induction l with
  | nil => intro acc h; exact ⟨h, by intro p hp; cases hp⟩
  | cons x t ih =>
      intro acc h
      rw [List.foldl_cons] at h
      obtain ⟨hacc, hrest⟩ := ih _ h
      obtain ⟨h1, h2⟩ := or_eq_zero_parts hacc
      refine ⟨h1, ?_⟩
      intro p hp
      rcases List.mem_cons.mp hp with hh | hh
      · rw [hh]; exact h2
      · exact hrest p hh

/-- Lists of equal length with all zipped XORs zero are equal. -/
theorem eq_of_zip_xor_zero (a : List Nat) :
    ∀ b : List Nat, a.length = b.length →
      (∀ p ∈ List.zip a b, p.1 ^^^ p.2 = 0) → a = b := by
  induction a with
  | nil =>
      intro b hl _
      cases b with
      | nil => rfl
      | cons y u => simp at hl
  | cons x t ih =>
      intro b hl hall
      cases b with
      | nil => simp at hl
      | cons y u =>
          have hx : x ^^^ y = 0 :=
            hall (x, y) (by rw [List.zip_cons_cons]; exact List.mem_cons_self _ _)
          have hxy : x = y := Nat.xor_eq_zero.mp hx
          have ht : t = u := ih u (by simpa using hl)
            (fun p hp => hall p (by rw [List.zip_cons_cons]; exact List.mem_cons_of_mem _ hp))
          rw [hxy, ht]

/-- constantTimeCompare accepts only equal inputs. -/
theorem constantTimeCompare_eq {a b : List Nat} (h : constantTimeCompare a b = true) :
    a = b := by
  unfold constantTimeCompare at h
  by_cases hl : a.length ≠ b.length
  · rw [if_pos hl] at h
    simp at h
  · rw [if_neg hl] at h
    push_neg at hl
    have hfold : (List.zip a b).foldl (fun acc p => acc ||| (p.1 ^^^ p.2)) 0 = 0 := by
      simpa using h
    obtain ⟨-, hall⟩ := foldl_or_eq_zero _ 0 hfold
    exact eq_of_zip_xor_zero a b hl hall

/-- Unfolding of decryptMnemonic on a keystore whose hex columns decode. -/
theorem decryptMnemonic_of_decodes (prims : CryptoPrims) (ks : KeystoreJSONModel)
    (salt2 iv2 ct2 mac2 p : List Nat)
    (h1 : hexDecode ks.salt = some salt2) (h2 : hexDecode ks.iv = some iv2)
    (h3 : hexDecode ks.ciphertext = some ct2) (h4 : hexDecode ks.mac = some mac2) :
    decryptMnemonic prims ks p =
      (if !constantTimeCompare
          (calculateMAC prims (((prims.scryptKey p salt2).drop 16).take 16) ct2) mac2 then
        .error "invalid password: MAC mismatch"
      else .ok (decryptAES128CTR prims ((prims.scryptKey p salt2).take 16) iv2 ct2)) := by
  unfold decryptMnemonic
  rw [h1, h2, h3, h4]

/-- C5: decrypting the encrypted keystore with the same password recovers the
mnemonic; with any password whose derived MAC differs from the stored MAC,
and likewise for any keystore whose recomputed MAC mismatches (a tampered
ciphertext), decryption fails with the single invalid-password MAC-mismatch
error — no other diagnostic.  The inequality hypotheses say the SHA-256 MACs
of the two derived keys do not collide at this instance, which is what the
claim's p1 ≠ p2 provides for real scrypt and SHA-256. -/
theorem keystore_roundtrip (prims : CryptoPrims) (salt iv mnemonic p1 p2 : List Nat)
    (hsalt : ∀ b ∈ salt, b < 256) (hiv : ∀ b ∈ iv, b < 256)
    (hmn : ∀ b ∈ mnemonic, b < 256)
    (hks : ∀ key ivv i, prims.ctrKeystream key ivv i < 256)
    (hsha : ∀ x, ∀ b ∈ prims.sha256Hash x, b < 256) :
    decryptMnemonic prims (encryptMnemonic prims salt iv mnemonic p1) p1 =
      .ok mnemonic ∧
    (calculateMAC prims (((prims.scryptKey p2 salt).drop 16).take 16)
        (encryptAES128CTR prims ((prims.scryptKey p1 salt).take 16) iv mnemonic) ≠
      calculateMAC prims (((prims.scryptKey p1 salt).drop 16).take 16)
        (encryptAES128CTR prims ((prims.scryptKey p1 salt).take 16) iv mnemonic) →
      decryptMnemonic prims (encryptMnemonic prims salt iv mnemonic p1) p2 =
        .error "invalid password: MAC mismatch") ∧
    (∀ (ks2 : KeystoreJSONModel) (salt2 iv2 ct2 mac2 : List Nat),
      hexDecode ks2.salt = some salt2 → hexDecode ks2.iv = some iv2 →
      hexDecode ks2.ciphertext = some ct2 → hexDecode ks2.mac = some mac2 →
      calculateMAC prims (((prims.scryptKey p2 salt2).drop 16).take 16) ct2 ≠ mac2 →
      decryptMnemonic prims ks2 p2 = .error "invalid password: MAC mismatch") := by
  have hctb : ∀ b ∈ encryptAES128CTR prims ((prims.scryptKey p1 salt).take 16) iv mnemonic,
      b < 256 := by
    intro b hb
    unfold encryptAES128CTR at hb
    obtain ⟨i, hi, hbi⟩ := List.mem_map.mp hb
    rw [← hbi]
    have hpow : (256 : Nat) = 2 ^ 8 := by norm_num
    rw [hpow]
    refine Nat.xor_lt_two_pow (by rw [← hpow]; exact hks _ _ _) ?_
    rw [← hpow]
    by_cases him : i < mnemonic.length
    · rw [List.getD_eq_getElem _ _ him]
      exact hmn _ (List.getElem_mem him)
    · rw [List.getD_eq_default _ _ (not_lt.mp him)]
      norm_num
  have hmacb : ∀ b ∈ calculateMAC prims (((prims.scryptKey p1 salt).drop 16).take 16)
      (encryptAES128CTR prims ((prims.scryptKey p1 salt).take 16) iv mnemonic),
      b < 256 := fun b hb => hsha _ b hb
  have hds : hexDecode (encryptMnemonic prims salt iv mnemonic p1).salt = some salt :=
    hexDecode_hexEncode salt hsalt
  have hdi : hexDecode (encryptMnemonic prims salt iv mnemonic p1).iv = some iv :=
    hexDecode_hexEncode iv hiv
  have hdc : hexDecode (encryptMnemonic prims salt iv mnemonic p1).ciphertext =
      some (encryptAES128CTR prims ((prims.scryptKey p1 salt).take 16) iv mnemonic) :=
    hexDecode_hexEncode _ hctb
  have hdm : hexDecode (encryptMnemonic prims salt iv mnemonic p1).mac =
      some (calculateMAC prims (((prims.scryptKey p1 salt).drop 16).take 16)
        (encryptAES128CTR prims ((prims.scryptKey p1 salt).take 16) iv mnemonic)) :=
    hexDecode_hexEncode _ hmacb
  refine ⟨?_, ?_, ?_⟩
  · rw [decryptMnemonic_of_decodes prims _ _ _ _ _ p1 hds hdi hdc hdm,
      constantTimeCompare_self, if_neg (by decide)]
    rw [decrypt_encrypt_ctr]
  · intro hneq
    rw [decryptMnemonic_of_decodes prims _ _ _ _ _ p2 hds hdi hdc hdm]
    have hctc : constantTimeCompare
        (calculateMAC prims (((prims.scryptKey p2 salt).drop 16).take 16)
          (encryptAES128CTR prims ((prims.scryptKey p1 salt).take 16) iv mnemonic))
        (calculateMAC prims (((prims.scryptKey p1 salt).drop 16).take 16)
          (encryptAES128CTR prims ((prims.scryptKey p1 salt).take 16) iv mnemonic)) =
        false := by
      cases hc : constantTimeCompare
          (calculateMAC prims (((prims.scryptKey p2 salt).drop 16).take 16)
            (encryptAES128CTR prims ((prims.scryptKey p1 salt).take 16) iv mnemonic))
          (calculateMAC prims (((prims.scryptKey p1 salt).drop 16).take 16)
            (encryptAES128CTR prims ((prims.scryptKey p1 salt).take 16) iv mnemonic))
      · rfl
      · exact absurd (constantTimeCompare_eq hc) hneq
    rw [hctc, if_pos (by decide)]
  · intro ks2 salt2 iv2 ct2 mac2 h1 h2 h3 h4 hneq
    rw [decryptMnemonic_of_decodes prims ks2 salt2 iv2 ct2 mac2 p2 h1 h2 h3 h4]
    have hctc : constantTimeCompare
        (calculateMAC prims (((prims.scryptKey p2 salt2).drop 16).take 16) ct2) mac2 =
        false := by
      cases hc : constantTimeCompare
          (calculateMAC prims (((prims.scryptKey p2 salt2).drop 16).take 16) ct2) mac2
      · rfl
      · exact absurd (constantTimeCompare_eq hc) hneq
    rw [hctc, if_pos (by decide)]

/-- Witness for C5: with the toy primitives, encrypting the mnemonic [77, 78]
under password [0] decrypts back under [0] and fails with the
invalid-password error under password [1]. -/
theorem keystore_roundtrip_witness :
    decryptMnemonic toyCryptoPrims
        (encryptMnemonic toyCryptoPrims [] (List.replicate 16 0) [77, 78] [0]) [0] =
      .ok [77, 78] ∧
    decryptMnemonic toyCryptoPrims
        (encryptMnemonic toyCryptoPrims [] (List.replicate 16 0) [77, 78] [0]) [1] =
      .error "invalid password: MAC mismatch" := by
  have h := keystore_roundtrip toyCryptoPrims [] (List.replicate 16 0) [77, 78] [0] [1]
    (by intro b hb; cases hb)
    (by intro b hb; rw [List.eq_of_mem_replicate hb]; norm_num)
    (by decide)
    (fun key ivv i => Nat.mod_lt _ (by norm_num))
    (fun x b hb => by rw [List.eq_of_mem_replicate hb]; exact Nat.mod_lt _ (by norm_num))
  exact ⟨h.1, h.2.1 (by decide)⟩

end GoWallet
